import Mathlib

/-!
Verification of `machin/parallel/server/ordered_server.py`
(`OrderedServerSimple._push_service` and `OrderedServerSimple._pull_service`).

The server keeps `self.storage`, a Python `dict` mapping keys to
`OrderedDict`s; each `OrderedDict` maps a version token to a value, in
insertion order.  We embed both as association lists kept in insertion
order, with lookup by the first occurrence of a key, exactly matching
Python `dict` / `OrderedDict` semantics (their keys are unique, and our
operations preserve uniqueness).

Version tokens are Python objects compared with `==`; the service code
also uses the literal keys `0` (in `ref.pop(0)`) and `-1` (in `ref[-1]`)
and the sentinel `None`, so versions are embedded as a `PyVal` type that
contains `None`, the integers and the strings.  Exceptions
(`KeyError`, `StopIteration`) are made explicit with `Except`.
-/

set_option autoImplicit false

/-- A Python value usable as a version token: `None`, an `int`, or a `str`.
Equality of `PyVal`s is Python `==` on these values. -/
inductive PyVal where
  | none : PyVal
  | int : Int → PyVal
  | str : String → PyVal
deriving DecidableEq, Repr

/-- A Python exception that the two service bodies can raise. -/
inductive PyErr where
  | keyError : PyVal → PyErr
  | stopIteration : PyErr
deriving DecidableEq, Repr

/-- A history for one key: the embedding of the `OrderedDict` mapping
version tokens to values, as an insertion-ordered association list. -/
abbrev History (A : Type) := List (PyVal × A)

namespace History

variable {A : Type}

/-- `v in ref` / `ref[v]` read: first entry whose version equals `v`. -/
def odGet? : History A → PyVal → Option A
  | [], _ => Option.none
  | (k, a) :: t, v => if k = v then some a else odGet? t v

/-- `ref[v] = a` write: overwrite in place if `v` is present (keeping its
position in insertion order), otherwise append a new entry at the end. -/
def odSet : History A → PyVal → A → History A
  | [], v, a => [(v, a)]
  | (k, b) :: t, v, a => if k = v then (v, a) :: t else (k, b) :: odSet t v a

/-- `next(reversed(ref))`: the most recently inserted version token,
`Option.none` when the `OrderedDict` is empty (Python `StopIteration`). -/
def odLast : History A → Option PyVal
  | [] => Option.none
  | [(k, _)] => some k
  | _ :: t => odLast t

/-- `ref.pop(v)`: remove the entry whose version equals `v`;
`Option.none` models the `KeyError` raised when `v` is absent. -/
def odPop : History A → PyVal → Option (History A)
  | [], _ => Option.none
  | (k, a) :: t, v => if k = v then some t else (odPop t v).map ((k, a) :: ·)

end History

open History

/-- `self.storage`: the embedding of the Python `dict` from keys to
`OrderedDict` histories, as an association list. -/
abbrev Storage (K A : Type) := List (K × History A)

variable {K A : Type} [DecidableEq K]

/-- `key in storage` / `storage[key]` read. -/
def dGet? : Storage K A → K → Option (History A)
  | [], _ => Option.none
  | (k, h) :: t, key => if k = key then some h else dGet? t key

/-- `storage[key] = h` write (also the result of mutating the
`OrderedDict` object that `storage[key]` points to). -/
def dSet : Storage K A → K → History A → Storage K A
  | [], key, h => [(key, h)]
  | (k, h0) :: t, key, h => if k = key then (key, h) :: t else (k, h0) :: dSet t key h

/-- The mutable state of one `OrderedServerSimple` instance:
`self.storage` and `self.log_depth` (the constructor's `version_depth`). -/
structure SrvState (K A : Type) where
  storage : Storage K A
  log_depth : Nat
deriving Repr

/-- `OrderedServerSimple._push_service(key, value, version, prev_version)`.

Returns the Python return value (or the exception that escapes the
method) together with the state left behind, since in-place mutations
performed before an exception persist:

    success = False
    if key in self.storage:
        ref = self.storage[key]
        if next(reversed(ref)) == prev_version:
            ref[version] = value
            success = True
        if len(ref) > self.log_depth + 1:
            ref.pop(0)
    else:
        ref = self.storage[key] = OrderedDict()
        ref[version] = value
        success = True
    return success

The method is split here into the tail that runs after the consistency
check — `pushFinish`, the last `if` of the existing-key branch, which
prunes whether or not the check passed — and the dispatch `pushService`
itself. -/
def pushFinish (st : SrvState K A) (key : K) (success : Bool) (ref1 : History A) :
    Except PyErr Bool × SrvState K A :=
  if ref1.length > st.log_depth + 1 then
    match odPop ref1 (PyVal.int 0) with
    | some ref2 =>
      (Except.ok success, { st with storage := dSet st.storage key ref2 })
    | Option.none =>
      -- `ref.pop(0)` raises KeyError when the version `0` is absent; the
      -- in-place `ref[version] = value` (if any) has already happened
      (Except.error (PyErr.keyError (PyVal.int 0)),
       { st with storage := dSet st.storage key ref1 })
  else
    (Except.ok success, { st with storage := dSet st.storage key ref1 })

def pushService (st : SrvState K A) (key : K) (value : A)
    (version prev_version : PyVal) : Except PyErr Bool × SrvState K A :=
  match dGet? st.storage key with
  | some ref =>
    match odLast ref with
    | Option.none =>
      -- `next(reversed(ref))` on an empty OrderedDict raises StopIteration
      (Except.error PyErr.stopIteration, st)
    | some latest =>
      -- the consistency gate, then the pruning step (`pushFinish`),
      -- which the code runs whether or not the gate passed
      pushFinish st key (decide (latest = prev_version))
        (if latest = prev_version then odSet ref version value else ref)
  | Option.none =>
    (Except.ok true, { st with storage := dSet st.storage key [(version, value)] })

/-- `OrderedServerSimple._pull_service(key, version=None)`.

    result = None
    if key in self.storage:
        ref = self.storage[key]
        if version is not None and version in ref:
            result = (ref[version], version)
        elif version is None:
            result = (ref[-1], next(reversed(ref)))
    return result

The method performs no assignment at all, so the state it leaves behind
is the state it was given. -/
def pullService (st : SrvState K A) (key : K) (version : PyVal) :
    Except PyErr (Option (A × PyVal)) × SrvState K A :=
  ( match dGet? st.storage key with
    | Option.none => Except.ok Option.none
    | some ref =>
      if version ≠ PyVal.none ∧ (odGet? ref version).isSome then
        match odGet? ref version with
        | some a => Except.ok (some (a, version))
        | Option.none => Except.ok Option.none
      else if version = PyVal.none then
        -- `ref[-1]` looks up the *key* `-1`; KeyError when it is absent
        match odGet? ref (PyVal.int (-1)) with
        | Option.none => Except.error (PyErr.keyError (PyVal.int (-1)))
        | some a =>
          match odLast ref with
          | Option.none => Except.error PyErr.stopIteration
          | some latest => Except.ok (some (a, latest))
      else
        Except.ok Option.none,
    st )

/-- States reachable from a freshly constructed server with
`version_depth = d` by any sequence of push and pull calls
(including calls whose service body raised an exception). -/
inductive Reachable (d : Nat) : SrvState K A → Prop where
  | init : Reachable d ⟨[], d⟩
  | push (st : SrvState K A) (key : K) (value : A) (version prev_version : PyVal) :
      Reachable d st → Reachable d (pushService st key value version prev_version).2
  | pull (st : SrvState K A) (key : K) (version : PyVal) :
      Reachable d st → Reachable d (pullService st key version).2

/-! ### Basic lemmas about the embedded dict and OrderedDict operations -/

namespace History

variable {A : Type}

theorem odSet_ne_nil (l : History A) (v : PyVal) (a : A) : odSet l v a ≠ [] := by
  cases l with
  | nil => simp [odSet]
  | cons p t =>
    obtain ⟨k, b⟩ := p
    by_cases h : k = v <;> simp [odSet, h]

theorem odGet?_odSet_self (l : History A) (v : PyVal) (a : A) :
    odGet? (odSet l v a) v = some a := by
  induction l with
  | nil => simp [odSet, odGet?]
  | cons p t ih =>
    obtain ⟨k, b⟩ := p
    by_cases h : k = v
    · simp [odSet, h, odGet?]
    · simp [odSet, h, odGet?, ih]

theorem odSet_map_fst_of_mem (l : History A) (v : PyVal) (a : A)
    (hv : v ∈ l.map Prod.fst) :
    (odSet l v a).map Prod.fst = l.map Prod.fst := by
  induction l with
  | nil => simp at hv
  | cons p t ih =>
    obtain ⟨k, b⟩ := p
    by_cases h : k = v
    · simp [odSet, h]
    · have hv' : v ∈ t.map Prod.fst := by
        rcases List.mem_cons.mp hv with h1 | h1
        · exact absurd h1.symm h
        · exact h1
      simp [odSet, h, ih hv']

theorem odSet_length_of_mem (l : History A) (v : PyVal) (a : A)
    (hv : v ∈ l.map Prod.fst) :
    (odSet l v a).length = l.length := by
  have := odSet_map_fst_of_mem l v a hv
  calc (odSet l v a).length = ((odSet l v a).map Prod.fst).length := by simp
    _ = (l.map Prod.fst).length := by rw [this]
    _ = l.length := by simp

theorem odLast_eq_getLast (l : History A) :
    odLast l = (l.map Prod.fst).getLast? := by
  induction l with
  | nil => rfl
  | cons p t ih =>
    obtain ⟨k, b⟩ := p
    cases t with
    | nil => rfl
    | cons q t' =>
      rw [show odLast ((k, b) :: q :: t') = odLast (q :: t') from rfl, ih]
      simp [List.getLast?_cons_cons]

theorem odLast_mem (l : History A) (v : PyVal) (h : odLast l = some v) :
    v ∈ l.map Prod.fst := by
  rw [odLast_eq_getLast] at h
  obtain ⟨hne, hv⟩ := List.mem_getLast?_eq_getLast (Option.mem_def.mpr h)
  rw [hv]
  exact List.getLast_mem hne

theorem odLast_odSet_of_mem (l : History A) (v : PyVal) (a : A)
    (hv : v ∈ l.map Prod.fst) :
    odLast (odSet l v a) = odLast l := by
  rw [odLast_eq_getLast, odLast_eq_getLast, odSet_map_fst_of_mem l v a hv]

theorem odLast_ne_nil (l : History A) (v : PyVal) (h : odLast l = some v) :
    l ≠ [] := by
  intro hn
  subst hn
  simp [odLast] at h

theorem odPop_length (l : History A) (v : PyVal) (l' : History A)
    (h : odPop l v = some l') : l'.length + 1 = l.length := by
  induction l generalizing l' with
  | nil => simp [odPop] at h
  | cons p t ih =>
    obtain ⟨k, b⟩ := p
    by_cases hk : k = v
    · simp [odPop, hk] at h
      subst h
      simp
    · simp [odPop, hk] at h
      obtain ⟨x, hx, hxl⟩ := h
      subst hxl
      simp [← ih x hx]

end History

theorem dGet?_dSet (s : Storage K A) (k k' : K) (h : History A) :
    dGet? (dSet s k h) k' = if k = k' then some h else dGet? s k' := by
  induction s with
  | nil => simp [dSet, dGet?]
  | cons p t ih =>
    obtain ⟨k0, h0⟩ := p
    by_cases hk : k0 = k
    · subst hk
      by_cases hk' : k0 = k' <;> simp [dSet, dGet?, hk']
    · by_cases hk' : k0 = k'
      · subst hk'
        simp [dSet, hk, dGet?, if_neg (fun hh : k = k0 => hk hh.symm)]
      · simp [dSet, hk, dGet?, hk', ih]

theorem dSet_self (s : Storage K A) (k : K) (h : History A)
    (hs : dGet? s k = some h) : dSet s k h = s := by
  induction s with
  | nil => simp [dGet?] at hs
  | cons p t ih =>
    obtain ⟨k0, h0⟩ := p
    by_cases hk : k0 = k
    · subst hk
      simp [dGet?] at hs
      simp [dSet, hs]
    · simp [dGet?, hk] at hs
      simp [dSet, hk, ih hs]

/-! ### Structural lemmas about the push and pull services -/

theorem pullService_state (st : SrvState K A) (key : K) (version : PyVal) :
    (pullService st key version).2 = st := rfl

theorem pushFinish_of_le (st : SrvState K A) (key : K) (success : Bool)
    (ref1 : History A) (h : ref1.length ≤ st.log_depth + 1) :
    pushFinish st key success ref1
      = (Except.ok success, { st with storage := dSet st.storage key ref1 }) := by
  unfold pushFinish
  rw [if_neg (Nat.not_lt.mpr h)]

theorem pushFinish_shape (st : SrvState K A) (key : K) (success : Bool)
    (ref1 : History A) (h : ref1 ≠ []) :
    ∃ ref', (pushFinish st key success ref1).2
        = { st with storage := dSet st.storage key ref' } ∧ ref' ≠ [] := by
  unfold pushFinish
  by_cases hl : ref1.length > st.log_depth + 1
  · rw [if_pos hl]
    cases hp : odPop ref1 (PyVal.int 0) with
    | none => exact ⟨ref1, rfl, h⟩
    | some ref2 =>
      refine ⟨ref2, rfl, ?_⟩
      have h2 := odPop_length ref1 (PyVal.int 0) ref2 hp
      have : 0 < ref2.length := by omega
      exact List.length_pos.mp this
  · rw [if_neg hl]
    exact ⟨ref1, rfl, h⟩

theorem pushService_fresh (st : SrvState K A) (key : K) (value : A)
    (version prev_version : PyVal) (h : dGet? st.storage key = Option.none) :
    pushService st key value version prev_version
      = (Except.ok true,
         { st with storage := dSet st.storage key [(version, value)] }) := by
  unfold pushService
  rw [h]

theorem pushService_existing (st : SrvState K A) (key : K) (value : A)
    (version prev_version latest : PyVal) (ref : History A)
    (h : dGet? st.storage key = some ref) (hl : odLast ref = some latest) :
    pushService st key value version prev_version
      = pushFinish st key (decide (latest = prev_version))
          (if latest = prev_version then odSet ref version value else ref) := by
  unfold pushService
  rw [h]
  simp only [hl]

theorem pushService_shape (st : SrvState K A) (key : K) (value : A)
    (version prev_version : PyVal) :
    (pushService st key value version prev_version).2 = st ∨
    ∃ ref', (pushService st key value version prev_version).2
        = { st with storage := dSet st.storage key ref' } ∧ ref' ≠ [] := by
  cases h : dGet? st.storage key with
  | none =>
    right
    rw [pushService_fresh st key value version prev_version h]
    exact ⟨[(version, value)], rfl, by simp⟩
  | some ref =>
    cases hl : odLast ref with
    | none =>
      left
      unfold pushService
      rw [h]
      simp only [hl]
    | some latest =>
      right
      rw [pushService_existing st key value version prev_version latest ref h hl]
      apply pushFinish_shape
      by_cases hpv : latest = prev_version
      · rw [if_pos hpv]
        exact odSet_ne_nil ref version value
      · rw [if_neg hpv]
        exact odLast_ne_nil ref latest hl

theorem pushService_mono (st : SrvState K A) (key : K) (value : A)
    (version prev_version : PyVal) (k' : K)
    (h : (dGet? st.storage k').isSome) :
    (dGet? (pushService st key value version prev_version).2.storage k').isSome := by
  rcases pushService_shape st key value version prev_version with hs | ⟨ref', hs, _⟩
  · rw [hs]
    exact h
  · rw [hs]
    simp only [dGet?_dSet]
    by_cases hk : key = k' <;> simp [hk, h]

theorem pushService_new_key (st : SrvState K A) (key : K) (value : A)
    (version prev_version : PyVal) (k' : K)
    (h0 : dGet? st.storage k' = Option.none)
    (h1 : (dGet? (pushService st key value version prev_version).2.storage k').isSome) :
    (pushService st key value version prev_version).1 = Except.ok true ∧ k' = key := by
  have hkk : k' = key := by
    by_contra hne
    rcases pushService_shape st key value version prev_version with hs | ⟨ref', hs, _⟩
    · rw [hs, h0] at h1
      simp at h1
    · rw [hs] at h1
      simp only [dGet?_dSet] at h1
      rw [if_neg (fun hh : key = k' => hne hh.symm), h0] at h1
      simp at h1
  subst hkk
  rw [pushService_fresh st k' value version prev_version h0]
  exact ⟨rfl, rfl⟩

theorem reachable_histories_ne_nil (d : Nat) (st : SrvState K A)
    (hr : Reachable d st) :
    ∀ k ref, dGet? st.storage k = some ref → ref ≠ [] := by
  induction hr with
  | init =>
    intro k ref h
    simp [dGet?] at h
  | push st key value version prev_version _ ih =>
    intro k ref h
    rcases pushService_shape st key value version prev_version with hs | ⟨ref', hs, hne⟩
    · rw [hs] at h
      exact ih k ref h
    · rw [hs] at h
      simp only [dGet?_dSet] at h
      by_cases hk : key = k
      · rw [if_pos hk] at h
        cases h
        exact hne
      · rw [if_neg hk] at h
        exact ih k ref h
  | pull st key version _ ih =>
    intro k ref h
    rw [pullService_state] at h
    exact ih k ref h

/-! ### The claims -/

/-- Claim C1 is false as stated: for an existing key, a push with
`version = prev_version` does **not** succeed unconditionally.  With the
key's latest version `"A"`, `push(k, 44, "B", "B")` supplies
`version = prev_version = "B"`, yet the service compares
`next(reversed(ref)) == prev_version`, i.e. `"A" == "B"`, and returns
`False` without storing anything. -/
theorem C1_counterexample :
    dGet? ([(0, [(PyVal.str "A", 11)])] : Storage Nat Nat) 0
      = some [(PyVal.str "A", 11)] ∧
    pushService (⟨[(0, [(PyVal.str "A", 11)])], 1⟩ : SrvState Nat Nat)
        0 44 (PyVal.str "B") (PyVal.str "B")
      = (Except.ok false, ⟨[(0, [(PyVal.str "A", 11)])], 1⟩) :=
  ⟨rfl, rfl⟩

/-- Claim C1, amended: for an existing key with a non-empty History within
the depth bound, a push with `version = prev_version` returns `True` and
overwrites the value stored under that version exactly when `prev_version`
equals the version of the current latest record; otherwise it returns
`False` and leaves the store unchanged. -/
theorem C1_escape_hatch (st : SrvState K A) (k : K) (v : A)
    (ver latest : PyVal) (ref : History A)
    (h1 : dGet? st.storage k = some ref)
    (h2 : odLast ref = some latest)
    (h3 : ref.length ≤ st.log_depth + 1) :
    pushService st k v ver ver
      = (Except.ok (decide (latest = ver)),
         if latest = ver
           then { st with storage := dSet st.storage k (odSet ref ver v) }
           else st) ∧
    odGet? (odSet ref ver v) ver = some v := by
  constructor
  · rw [pushService_existing st k v ver ver latest ref h1 h2]
    by_cases hlv : latest = ver
    · rw [if_pos hlv, if_pos hlv]
      have hm : ver ∈ ref.map Prod.fst := hlv ▸ odLast_mem ref latest h2
      exact pushFinish_of_le st k _ _
        (by rw [odSet_length_of_mem ref ver v hm]; exact h3)
    · rw [if_neg hlv, if_neg hlv]
      rw [pushFinish_of_le st k (decide (latest = ver)) ref h3]
      rw [dSet_self st.storage k ref h1]
  · exact odGet?_odSet_self ref ver v

/-- Witness for the amended claim C1 at a concrete input: key `0` exists
with latest version `"A"`, and `push(0, 55, "A", "A")` succeeds and
overwrites the value stored under `"A"`. -/
theorem C1_escape_hatch_witness :
    pushService (⟨[(0, [(PyVal.str "A", 11)])], 1⟩ : SrvState Nat Nat)
        0 55 (PyVal.str "A") (PyVal.str "A")
      = (Except.ok true, ⟨[(0, [(PyVal.str "A", 55)])], 1⟩) ∧
    odGet? (odSet [(PyVal.str "A", 11)] (PyVal.str "A") (55 : Nat)) (PyVal.str "A")
      = some 55 :=
  C1_escape_hatch (⟨[(0, [(PyVal.str "A", 11)])], 1⟩ : SrvState Nat Nat)
    0 55 (PyVal.str "A") (PyVal.str "A") [(PyVal.str "A", 11)] rfl rfl (by decide)

/-- Claim C2 names a code bug: after a first successful
`push(k, 11, "A", None)` on a fresh key, `pull(k)` with the version
argument omitted does not return the latest record `(11, "A")` — the
expression `ref[-1]` looks up the literal dictionary key `-1`, which is
absent, so the pull service raises `KeyError: -1`. -/
theorem C2_pull_latest_raises :
    pushService (⟨[], 1⟩ : SrvState Nat Nat) 0 11 (PyVal.str "A") PyVal.none
      = (Except.ok true, ⟨[(0, [(PyVal.str "A", 11)])], 1⟩) ∧
    (pullService (⟨[(0, [(PyVal.str "A", 11)])], 1⟩ : SrvState Nat Nat)
        0 PyVal.none).1
      = Except.error (PyErr.keyError (PyVal.int (-1))) :=
  ⟨rfl, rfl⟩

/-- Claim C3 names a code bug: with `version_depth = 1`, after two chained
successful pushes the third push makes the History exceed `depth + 1 = 2`
records, but the pruning statement `ref.pop(0)` does not drop the oldest
record — it looks up the literal dictionary key `0`, which is absent, so
the push service raises `KeyError: 0` and all three records remain. -/
theorem C3_prune_raises :
    pushService (⟨[], 1⟩ : SrvState Nat Nat) 0 1 (PyVal.str "A") PyVal.none
      = (Except.ok true, ⟨[(0, [(PyVal.str "A", 1)])], 1⟩) ∧
    pushService (⟨[(0, [(PyVal.str "A", 1)])], 1⟩ : SrvState Nat Nat)
        0 2 (PyVal.str "B") (PyVal.str "A")
      = (Except.ok true,
         ⟨[(0, [(PyVal.str "A", 1), (PyVal.str "B", 2)])], 1⟩) ∧
    pushService (⟨[(0, [(PyVal.str "A", 1), (PyVal.str "B", 2)])], 1⟩ :
          SrvState Nat Nat)
        0 3 (PyVal.str "C") (PyVal.str "B")
      = (Except.error (PyErr.keyError (PyVal.int 0)),
         ⟨[(0, [(PyVal.str "A", 1), (PyVal.str "B", 2), (PyVal.str "C", 3)])],
          1⟩) :=
  ⟨rfl, rfl, rfl⟩

/-- Claim C4 names a code bug: with `version_depth = 2`, five strictly
chained pushes cannot even be completed — the first three succeed, but the
fourth brings the History to 4 > `depth + 1 = 3` records and the pruning
statement `ref.pop(0)` raises `KeyError: 0` (the literal key `0` is
absent) instead of evicting the oldest version, so no version is ever
auto-deleted and the old versions stay retrievable. -/
theorem C4_depth_bound_raises :
    pushService (⟨[], 2⟩ : SrvState Nat Nat) 4 10 (PyVal.str "A") PyVal.none
      = (Except.ok true, ⟨[(4, [(PyVal.str "A", 10)])], 2⟩) ∧
    pushService (⟨[(4, [(PyVal.str "A", 10)])], 2⟩ : SrvState Nat Nat)
        4 20 (PyVal.str "B") (PyVal.str "A")
      = (Except.ok true,
         ⟨[(4, [(PyVal.str "A", 10), (PyVal.str "B", 20)])], 2⟩) ∧
    pushService (⟨[(4, [(PyVal.str "A", 10), (PyVal.str "B", 20)])], 2⟩ :
          SrvState Nat Nat)
        4 30 (PyVal.str "C") (PyVal.str "B")
      = (Except.ok true,
         ⟨[(4, [(PyVal.str "A", 10), (PyVal.str "B", 20),
                (PyVal.str "C", 30)])], 2⟩) ∧
    pushService (⟨[(4, [(PyVal.str "A", 10), (PyVal.str "B", 20),
                        (PyVal.str "C", 30)])], 2⟩ : SrvState Nat Nat)
        4 40 (PyVal.str "D") (PyVal.str "C")
      = (Except.error (PyErr.keyError (PyVal.int 0)),
         ⟨[(4, [(PyVal.str "A", 10), (PyVal.str "B", 20),
                (PyVal.str "C", 30), (PyVal.str "D", 40)])], 2⟩) ∧
    (pullService (⟨[(4, [(PyVal.str "A", 10), (PyVal.str "B", 20),
                         (PyVal.str "C", 30), (PyVal.str "D", 40)])], 2⟩ :
          SrvState Nat Nat)
        4 (PyVal.str "A")).1
      = Except.ok (some (10, PyVal.str "A")) :=
  ⟨rfl, rfl, rfl, rfl, rfl⟩

/-- Claim C5 names a code bug: the acceptance rule (`True` iff the key has
no History or `prev_version` equals the latest version) is what the code
computes into its `success` flag, but the service does not always get to
return it.  With `version_depth = 1` and latest version `"B"`, the push
`push(5, 30, "C", "B")` satisfies the rule's right-hand side, yet the
service raises `KeyError: 0` from `ref.pop(0)` instead of returning
`True`. -/
theorem C5_return_value_raises :
    pushService (⟨[], 1⟩ : SrvState Nat Nat) 5 10 (PyVal.str "A") PyVal.none
      = (Except.ok true, ⟨[(5, [(PyVal.str "A", 10)])], 1⟩) ∧
    pushService (⟨[(5, [(PyVal.str "A", 10)])], 1⟩ : SrvState Nat Nat)
        5 20 (PyVal.str "B") (PyVal.str "A")
      = (Except.ok true,
         ⟨[(5, [(PyVal.str "A", 10), (PyVal.str "B", 20)])], 1⟩) ∧
    odLast ([(PyVal.str "A", 10), (PyVal.str "B", 20)] : History Nat)
      = some (PyVal.str "B") ∧
    (pushService (⟨[(5, [(PyVal.str "A", 10), (PyVal.str "B", 20)])], 1⟩ :
          SrvState Nat Nat)
        5 30 (PyVal.str "C") (PyVal.str "B")).1
      = Except.error (PyErr.keyError (PyVal.int 0)) :=
  ⟨rfl, rfl, rfl, rfl⟩

/-- Claim C6 names a code bug: the services are not exception-free.  In a
state reached by two perfectly ordinary successful pushes,
`pull(6)` with the version argument omitted raises `KeyError: -1`
(from `ref[-1]`) instead of surfacing anything as `none` or as a value. -/
theorem C6_services_raise :
    pushService (⟨[], 2⟩ : SrvState Nat Nat) 6 1 (PyVal.str "A") PyVal.none
      = (Except.ok true, ⟨[(6, [(PyVal.str "A", 1)])], 2⟩) ∧
    pushService (⟨[(6, [(PyVal.str "A", 1)])], 2⟩ : SrvState Nat Nat)
        6 2 (PyVal.str "B") (PyVal.str "A")
      = (Except.ok true,
         ⟨[(6, [(PyVal.str "A", 1), (PyVal.str "B", 2)])], 2⟩) ∧
    (pullService (⟨[(6, [(PyVal.str "A", 1), (PyVal.str "B", 2)])], 2⟩ :
          SrvState Nat Nat)
        6 PyVal.none).1
      = Except.error (PyErr.keyError (PyVal.int (-1))) :=
  ⟨rfl, rfl, rfl⟩

/-- Claim C7: a successful push whose `version` is already present in the
key's History (within the depth bound) returns `True` and overwrites that
record's value in place: the sequence of version tokens — hence both the
record's position in the append order and the identity (version) of the
latest record — is unchanged. -/
theorem C7_repush_in_place (st : SrvState K A) (k : K) (v : A)
    (ver prev : PyVal) (ref : History A)
    (h1 : dGet? st.storage k = some ref)
    (h2 : ver ∈ ref.map Prod.fst)
    (h3 : odLast ref = some prev)
    (h4 : ref.length ≤ st.log_depth + 1) :
    pushService st k v ver prev
      = (Except.ok true, { st with storage := dSet st.storage k (odSet ref ver v) }) ∧
    (odSet ref ver v).map Prod.fst = ref.map Prod.fst ∧
    odGet? (odSet ref ver v) ver = some v ∧
    odLast (odSet ref ver v) = odLast ref := by
  refine ⟨?_, odSet_map_fst_of_mem ref ver v h2, odGet?_odSet_self ref ver v,
    odLast_odSet_of_mem ref ver v h2⟩
  rw [pushService_existing st k v ver prev prev ref h1 h3]
  rw [if_pos rfl, show decide (prev = prev) = true by simp]
  exact pushFinish_of_le st k true _
    (by rw [odSet_length_of_mem ref ver v h2]; exact h4)

/-- Witness for claim C7 at a concrete input: key `3` holds versions
`"A", "B"` (latest `"B"`), and `push(3, 99, "A", "B")` succeeds,
overwriting the value under `"A"` while keeping the token order
`["A", "B"]` and the latest version `"B"`. -/
theorem C7_repush_in_place_witness :
    pushService (⟨[(3, [(PyVal.str "A", 1), (PyVal.str "B", 2)])], 2⟩ :
          SrvState Nat Nat)
        3 99 (PyVal.str "A") (PyVal.str "B")
      = (Except.ok true,
         ⟨[(3, [(PyVal.str "A", 99), (PyVal.str "B", 2)])], 2⟩) ∧
    (odSet [(PyVal.str "A", 1), (PyVal.str "B", 2)] (PyVal.str "A")
        (99 : Nat)).map Prod.fst
      = ([(PyVal.str "A", 1), (PyVal.str "B", 2)] : History Nat).map Prod.fst ∧
    odGet? (odSet [(PyVal.str "A", 1), (PyVal.str "B", 2)] (PyVal.str "A")
        (99 : Nat)) (PyVal.str "A")
      = some 99 ∧
    odLast (odSet [(PyVal.str "A", 1), (PyVal.str "B", 2)] (PyVal.str "A")
        (99 : Nat))
      = odLast [(PyVal.str "A", 1), (PyVal.str "B", 2)] :=
  C7_repush_in_place (⟨[(3, [(PyVal.str "A", 1), (PyVal.str "B", 2)])], 2⟩ :
      SrvState Nat Nat)
    3 99 (PyVal.str "A") (PyVal.str "B") [(PyVal.str "A", 1), (PyVal.str "B", 2)]
    rfl (by decide) rfl (by decide)

/-- Claim C8: pull is read-only — for every store state, key and version
argument the state after the pull service runs (even when it raises) is
exactly the state before it; in particular no pruning happens on pull. -/
theorem C8_pull_read_only (st : SrvState K A) (key : K) (version : PyVal) :
    (pullService st key version).2 = st := rfl

/-- Claim C9: in every state reachable by any sequence of push and pull
calls, every key present in the store has a History with at least one
record; moreover a present key stays present across any further push, a
key goes from absent to present only via a push of that very key that
returns `True` (the first successful push), and pull never changes the
store at all. -/
theorem C9_keys_persist (d : Nat) (st : SrvState K A) (hr : Reachable d st) :
    (∀ k ref, dGet? st.storage k = some ref → ref ≠ []) ∧
    (∀ key value version prev_version k',
      (dGet? st.storage k').isSome →
      (dGet? (pushService st key value version prev_version).2.storage k').isSome) ∧
    (∀ key value version prev_version k',
      dGet? st.storage k' = Option.none →
      (dGet? (pushService st key value version prev_version).2.storage k').isSome →
      (pushService st key value version prev_version).1 = Except.ok true ∧ k' = key) ∧
    (∀ key version, (pullService st key version).2 = st) :=
  ⟨reachable_histories_ne_nil d st hr,
   fun key value version pv k' h => pushService_mono st key value version pv k' h,
   fun key value version pv k' h0 h1 => pushService_new_key st key value version pv k' h0 h1,
   fun _ _ => rfl⟩

/-- Witness for claim C9 at a concrete input: the freshly constructed
server state with `version_depth = 1` is reachable, and the four
conjuncts hold for it. -/
theorem C9_keys_persist_witness :
    (∀ k ref, dGet? ([] : Storage Nat Nat) k = some ref → ref ≠ []) ∧
    (∀ key value version prev_version k',
      (dGet? ([] : Storage Nat Nat) k').isSome →
      (dGet? (pushService (⟨[], 1⟩ : SrvState Nat Nat)
          key value version prev_version).2.storage k').isSome) ∧
    (∀ key value version prev_version k',
      dGet? ([] : Storage Nat Nat) k' = Option.none →
      (dGet? (pushService (⟨[], 1⟩ : SrvState Nat Nat)
          key value version prev_version).2.storage k').isSome →
      (pushService (⟨[], 1⟩ : SrvState Nat Nat)
          key value version prev_version).1 = Except.ok true ∧ k' = key) ∧
    (∀ key version,
      (pullService (⟨[], 1⟩ : SrvState Nat Nat) key version).2
        = (⟨[], 1⟩ : SrvState Nat Nat)) :=
  C9_keys_persist 1 ⟨[], 1⟩ Reachable.init

/-- Claim C10: for every key that has no History in the store, the pull
service returns `None` (and raises nothing) for every value of the
version argument, including the omitted-version case `None`. -/
theorem C10_unknown_key (st : SrvState K A) (key : K)
    (h : dGet? st.storage key = Option.none) (version : PyVal) :
    pullService st key version = (Except.ok Option.none, st) := by
  unfold pullService
  rw [h]

/-- Witness for claim C10 at a concrete input: key `3` is absent (only
key `7` is stored), so `pull(3, "A")` returns `None`. -/
theorem C10_unknown_key_witness :
    pullService (⟨[(7, [(PyVal.str "A", 5)])], 1⟩ : SrvState Nat Nat)
        3 (PyVal.str "A")
      = (Except.ok Option.none, ⟨[(7, [(PyVal.str "A", 5)])], 1⟩) :=
  C10_unknown_key (⟨[(7, [(PyVal.str "A", 5)])], 1⟩ : SrvState Nat Nat)
    3 rfl (PyVal.str "A")
